/-
Verification of the stats-sync parlay/odds-math core.

The Python sources are shallowly embedded in Lean:
* floats are modelled as exact rationals (ℚ);
* Python `int(x)` (truncation toward zero) is modelled by `pyInt`;
* code that can raise an exception returns `Except PyError _`
  (a raised `ZeroDivisionError` is `.error .zeroDivision`);
* `random.*` calls are modelled by explicit oracle parameters, so theorems
  quantify over every possible random outcome.
-/
import Mathlib

namespace StatsSync

/-- Exception kinds relevant to the embedded code.  `zeroDivision` models
Python's `ZeroDivisionError`; `valueError` models `ValueError`; `domainError`
models the `DomainError` named by the specification (raised nowhere in the
embedded code). -/
inductive PyError where
  | zeroDivision
  | valueError
  | domainError
deriving DecidableEq, Repr

/-- Python `int()` applied to a float/rational: truncation toward zero. -/
def pyInt (q : ℚ) : ℤ := if 0 ≤ q then ⌊q⌋ else ⌈q⌉

/-! ## Odds math (`parlay-optimizer/utils/odds_math.py`) -/

/-- `american_to_decimal` from `odds_math.py`: positive odds map to
`odds/100 + 1`, otherwise `100/abs(odds) + 1`.  At `odds = 0` the Python
code divides by `abs(0)` and raises `ZeroDivisionError`. -/
def american_to_decimal (american_odds : ℤ) : Except PyError ℚ :=
  if 0 < american_odds then .ok ((american_odds : ℚ) / 100 + 1)
  else if american_odds = 0 then .error .zeroDivision
  else .ok (100 / (american_odds.natAbs : ℚ) + 1)

/-- The value computed by `american_to_decimal` on non-zero input, as a total
function (used where the surrounding code guarantees non-zero odds). -/
def americanToDecimalVal (american_odds : ℤ) : ℚ :=
  if 0 < american_odds then (american_odds : ℚ) / 100 + 1
  else 100 / (american_odds.natAbs : ℚ) + 1

/-- `decimal_to_american` from `odds_math.py`: `decimal ≥ 2` maps to
`int((decimal-1)*100)`, otherwise `int(-100/(decimal-1))`, which raises
`ZeroDivisionError` when `decimal = 1`. -/
def decimal_to_american (decimal_odds : ℚ) : Except PyError ℤ :=
  if 2 ≤ decimal_odds then .ok (pyInt ((decimal_odds - 1) * 100))
  else if decimal_odds - 1 = 0 then .error .zeroDivision
  else .ok (pyInt (-100 / (decimal_odds - 1)))

/-- The list comprehension `[american_to_decimal(odds) for odds in individual_odds]`,
with exception propagation. -/
def mapAmericanToDecimal : List ℤ → Except PyError (List ℚ)
  | [] => .ok []
  | o :: rest =>
    match american_to_decimal o with
    | .error e => .error e
    | .ok d =>
      match mapAmericanToDecimal rest with
      | .error e => .error e
      | .ok ds => .ok (d :: ds)

/-- `calculate_parlay_odds` from `odds_math.py`: convert each leg to decimal,
multiply (left fold starting at 1.0), convert back. -/
def calculate_parlay_odds (individual_odds : List ℤ) : Except PyError ℤ :=
  match mapAmericanToDecimal individual_odds with
  | .error e => .error e
  | .ok decimal_odds => decimal_to_american (decimal_odds.foldl (fun a b => a * b) 1)

/-- `calculate_parlay_probability` from `odds_math.py`: product of the given
probabilities (left fold starting at 1.0); total, no error case. -/
def calculate_parlay_probability (individual_probabilities : List ℚ) : ℚ :=
  individual_probabilities.foldl (fun a b => a * b) 1

/-! ### Helper lemmas for odds math -/

lemma american_to_decimal_eq_val (o : ℤ) (h : o ≠ 0) :
    american_to_decimal o = .ok (americanToDecimalVal o) := by
  unfold american_to_decimal americanToDecimalVal
  by_cases hpos : 0 < o
  · simp [hpos]
  · simp [hpos, h]

lemma mapAmericanToDecimal_of_zero_mem (l : List ℤ) (h : (0 : ℤ) ∈ l) :
    mapAmericanToDecimal l = .error .zeroDivision := by
  induction l with
  | nil => cases h
  | cons o rest ih =>
    by_cases ho : o = 0
    · subst ho
      simp [mapAmericanToDecimal, american_to_decimal]
    · have hrest : (0 : ℤ) ∈ rest := by
        rcases List.mem_cons.mp h with h0 | hr
        · exact absurd h0.symm ho
        · exact hr
      unfold mapAmericanToDecimal
      rw [american_to_decimal_eq_val o ho, ih hrest]

lemma mapAmericanToDecimal_of_no_zero (l : List ℤ) (h : (0 : ℤ) ∉ l) :
    mapAmericanToDecimal l = .ok (l.map americanToDecimalVal) := by
  induction l with
  | nil => simp [mapAmericanToDecimal]
  | cons o rest ih =>
    have ho : o ≠ 0 := fun h0 => h (h0 ▸ List.mem_cons_self o rest)
    have hrest : (0 : ℤ) ∉ rest := fun hr => h (List.mem_cons_of_mem o hr)
    unfold mapAmericanToDecimal
    rw [american_to_decimal_eq_val o ho, ih hrest]
    rfl

lemma foldl_mul_eq_prod (l : List ℚ) : l.foldl (fun a b => a * b) 1 = l.prod := by
  rw [List.prod_eq_foldl]

/-! ## C3: round-trip `decimal_to_american ∘ american_to_decimal` -/

/-- The round trip of the two conversions, with exception propagation. -/
def oddsRoundTrip (o : ℤ) : Except PyError ℤ :=
  match american_to_decimal o with
  | .error e => .error e
  | .ok d => decimal_to_american d

lemma pyInt_intCast (n : ℤ) : pyInt (n : ℚ) = n := by
  unfold pyInt
  by_cases h : (0 : ℚ) ≤ (n : ℚ)
  · rw [if_pos h, Int.floor_intCast]
  · rw [if_neg h, Int.ceil_intCast]

/-- C3 (amended): for standard American odds, i.e. `o ≥ 100` or `o ≤ -101`,
the round trip recovers `o` exactly (in exact arithmetic), in particular to
within ±1.  (At `o = -100` the round trip is *not* within ±1: see the
counterexample theorem.) -/
theorem oddsRoundTrip_exact (o : ℤ) (h : 100 ≤ o ∨ o ≤ -101) :
    oddsRoundTrip o = .ok o := by
  have step : oddsRoundTrip o = decimal_to_american (americanToDecimalVal o) := by
    unfold oddsRoundTrip
    rw [american_to_decimal_eq_val o (by rcases h with h1 | h1 <;> omega)]
  rw [step]
  rcases h with hpos | hneg
  · have h0 : 0 < o := by omega
    unfold americanToDecimalVal
    rw [if_pos h0]
    unfold decimal_to_american
    have h2 : (2 : ℚ) ≤ (o : ℚ) / 100 + 1 := by
      have : (100 : ℚ) ≤ (o : ℚ) := by exact_mod_cast hpos
      have h100 : (1 : ℚ) ≤ (o : ℚ) / 100 := by
        rw [le_div_iff₀ (by norm_num : (0:ℚ) < 100)]
        linarith
      linarith
    rw [if_pos h2]
    have hval : ((o : ℚ) / 100 + 1 - 1) * 100 = ((o : ℤ) : ℚ) := by
      field_simp
    rw [hval, pyInt_intCast]
  · have h0 : ¬ 0 < o := by omega
    unfold americanToDecimalVal
    rw [if_neg h0]
    have habs : (101 : ℚ) ≤ (o.natAbs : ℚ) := by
      have : 101 ≤ (o.natAbs : ℤ) := by omega
      exact_mod_cast this
    have habs0 : (0 : ℚ) < (o.natAbs : ℚ) := by linarith
    unfold decimal_to_american
    have hfrac : 100 / (o.natAbs : ℚ) < 1 := by
      rw [div_lt_one habs0]; linarith
    have h2 : ¬ (2 : ℚ) ≤ 100 / (o.natAbs : ℚ) + 1 := by linarith
    rw [if_neg h2]
    have hne : 100 / (o.natAbs : ℚ) + 1 - 1 ≠ 0 := by
      have : (0 : ℚ) < 100 / (o.natAbs : ℚ) := by positivity
      intro hc
      simp only [add_sub_cancel_right] at hc
      linarith
    rw [if_neg hne]
    have hval : -100 / (100 / (o.natAbs : ℚ) + 1 - 1) = ((-(o.natAbs : ℤ) : ℤ) : ℚ) := by
      push_cast
      rw [add_sub_cancel_right, div_div_eq_mul_div, mul_comm, mul_div_assoc]
      norm_num
      rw [Int.cast_natAbs, Int.cast_abs]
    rw [hval, pyInt_intCast]
    have : -(o.natAbs : ℤ) = o := by omega
    rw [this]

/-- C3 witness: the amended round-trip theorem applied at `o = 150` and
`o = -110`. -/
theorem oddsRoundTrip_exact_witness :
    ((100 ≤ (150:ℤ) ∨ (150:ℤ) ≤ -101) ∧ oddsRoundTrip 150 = .ok 150) ∧
    ((100 ≤ (-110:ℤ) ∨ (-110:ℤ) ≤ -101) ∧ oddsRoundTrip (-110) = .ok (-110)) :=
  ⟨⟨Or.inl (by norm_num), oddsRoundTrip_exact 150 (Or.inl (by norm_num))⟩,
   ⟨Or.inr (by norm_num), oddsRoundTrip_exact (-110) (Or.inr (by norm_num))⟩⟩

/-- C3 counterexample: at the valid American odds `o = -100` (decimal 2.0,
the even-money boundary) the round trip returns `+100`, which is not within
±1 of `-100`.  So the claim "for every American odds value" fails. -/
theorem oddsRoundTrip_fails_at_neg100 :
    oddsRoundTrip (-100) = .ok 100 ∧ ¬ ((100 : ℤ) - (-100)).natAbs ≤ 1 := by
  constructor
  · have h1 : american_to_decimal (-100) = .ok 2 := by
      unfold american_to_decimal
      rw [if_neg (by norm_num), if_neg (by norm_num)]
      norm_num
    unfold oddsRoundTrip
    rw [h1]
    show decimal_to_american 2 = .ok 100
    unfold decimal_to_american
    rw [if_pos (by norm_num : (2:ℚ) ≤ 2)]
    have : pyInt (((2:ℚ) - 1) * 100) = 100 := by
      unfold pyInt
      rw [if_pos (by norm_num)]
      norm_num
    rw [this]
  · decide

/-! ## C4: `calculate_parlay_odds` on the empty list -/

lemma parlay_odds_nil_aux : calculate_parlay_odds [] = .error .zeroDivision := by
  show decimal_to_american 1 = .error .zeroDivision
  unfold decimal_to_american
  rw [if_neg (by norm_num), if_pos (by norm_num)]

/-- C4 counterexample: on the empty list `calculate_parlay_odds` does *not*
raise `ValueError` (there is no such guard in the code). -/
theorem calculate_parlay_odds_nil_not_valueError :
    calculate_parlay_odds [] ≠ .error .valueError := by
  rw [parlay_odds_nil_aux]
  intro hc
  exact PyError.noConfusion (Except.error.inj hc)

/-- C4 (amended): on the empty list the combined decimal odds is the empty
product 1.0, and `decimal_to_american(1.0)` raises `ZeroDivisionError`
(`-100/(1.0-1)`), so `calculate_parlay_odds([])` fails with
`ZeroDivisionError`, not `ValueError`. -/
theorem calculate_parlay_odds_nil_zeroDivision :
    calculate_parlay_odds [] = .error .zeroDivision :=
  parlay_odds_nil_aux

/-! ## C5: `decimal_to_american` at decimal odds exactly 1.0 -/

/-- C5 counterexample: at decimal odds exactly 1.0 the code does *not* raise
the `DomainError` named by the claim — there is no guard at all. -/
theorem decimal_to_american_one_not_domainError :
    decimal_to_american 1 ≠ .error .domainError := by
  have h : decimal_to_american 1 = .error .zeroDivision := by
    unfold decimal_to_american
    rw [if_neg (by norm_num), if_pos (by norm_num)]
  rw [h]
  intro hc
  exact PyError.noConfusion (Except.error.inj hc)

/-- C5 (amended): at decimal odds exactly 1.0, `decimal_to_american` hits
the unguarded division `-100/(decimal-1)` and fails with `ZeroDivisionError`;
in particular it never silently returns a numeric value. -/
theorem decimal_to_american_one_zeroDivision :
    decimal_to_american 1 = .error .zeroDivision ∧
    ∀ z : ℤ, decimal_to_american 1 ≠ .ok z := by
  have h : decimal_to_american 1 = .error .zeroDivision := by
    unfold decimal_to_american
    rw [if_neg (by norm_num), if_pos (by norm_num)]
  refine ⟨h, fun z hc => ?_⟩
  rw [h] at hc
  exact Except.noConfusion hc

/-! ## C9: permutation invariance of `calculate_parlay_odds` -/

/-- C9: for every non-empty list of American odds and every permutation of it,
`calculate_parlay_odds` returns the same result (in exact arithmetic the
decimal product is permutation invariant, and the zero-odds failure case is
also permutation invariant). -/
theorem calculate_parlay_odds_perm (l l' : List ℤ) (hne : l ≠ [])
    (hp : l.Perm l') : calculate_parlay_odds l = calculate_parlay_odds l' := by
  clear hne
  by_cases h0 : (0 : ℤ) ∈ l
  · have h0' : (0 : ℤ) ∈ l' := hp.mem_iff.mp h0
    unfold calculate_parlay_odds
    rw [mapAmericanToDecimal_of_zero_mem l h0, mapAmericanToDecimal_of_zero_mem l' h0']
  · have h0' : (0 : ℤ) ∉ l' := fun h => h0 (hp.mem_iff.mpr h)
    unfold calculate_parlay_odds
    rw [mapAmericanToDecimal_of_no_zero l h0, mapAmericanToDecimal_of_no_zero l' h0']
    show decimal_to_american ((l.map americanToDecimalVal).foldl (fun a b => a * b) 1) =
      decimal_to_american ((l'.map americanToDecimalVal).foldl (fun a b => a * b) 1)
    rw [foldl_mul_eq_prod, foldl_mul_eq_prod, (hp.map americanToDecimalVal).prod_eq]

/-- C9 witness: the permutation theorem applied at `[100, -110]` and
`[-110, 100]`. -/
theorem calculate_parlay_odds_perm_witness :
    ([100, -110] : List ℤ) ≠ [] ∧ ([100, -110] : List ℤ).Perm [-110, 100] ∧
    calculate_parlay_odds [100, -110] = calculate_parlay_odds [-110, 100] :=
  ⟨by simp, by exact List.Perm.swap (-110) 100 [],
   calculate_parlay_odds_perm [100, -110] [-110, 100] (by simp)
     (List.Perm.swap (-110) 100 [])⟩

/-! ## C10: `calculate_parlay_probability` on the empty list -/

/-- C10: `calculate_parlay_probability([])` is the empty product 1.0 and
raises nothing (the function is total), unlike `calculate_parlay_odds`,
which fails on the empty list; and on every list it returns the product of
the given probabilities. -/
theorem calculate_parlay_probability_spec :
    calculate_parlay_probability [] = 1 ∧
    (∃ e, calculate_parlay_odds [] = .error e) ∧
    ∀ l : List ℚ, calculate_parlay_probability l = l.prod := by
  refine ⟨rfl, ⟨.zeroDivision, parlay_odds_nil_aux⟩, ?_⟩
  intro l
  unfold calculate_parlay_probability
  exact foldl_mul_eq_prod l

/-! ## C8: `estimate_prop_odds` (`parlay-optimizer/utils/odds_math.py`) -/

/-- The `base_odds_map` dict literal from `estimate_prop_odds`, key order
preserved (it matters for closest-line tie-breaking). -/
def base_odds_map (prop_type : String) : Option (List (ℚ × ℤ)) :=
  if prop_type = "hits" then some [(1/2, 180), (3/2, 240), (5/2, 400)]
  else if prop_type = "home_runs" then some [(1/2, 240), (3/2, 800)]
  else if prop_type = "rbis" then some [(1/2, 160), (3/2, 300), (5/2, 500)]
  else if prop_type = "strikeouts" then some [(1/2, 140), (11/2, 180), (15/2, 300)]
  else if prop_type = "passing_yards" then some [(499/2, 110), (599/2, 160), (699/2, 250)]
  else if prop_type = "rushing_yards" then some [(99/2, 120), (159/2, 200), (199/2, 300)]
  else if prop_type = "receiving_yards" then some [(99/2, 110), (139/2, 160), (179/2, 250)]
  else if prop_type = "receptions" then some [(7/2, 120), (11/2, 180), (15/2, 300)]
  else none

/-- `line in prop_lines` / `prop_lines[line]`: exact-line lookup. -/
def lookupLine (line : ℚ) : List (ℚ × ℤ) → Option ℤ
  | [] => none
  | p :: ps => if p.1 = line then some p.2 else lookupLine line ps

/-- `min(prop_lines.keys(), key=lambda x: abs(x - line))`: Python's `min`
keeps the first key attaining the minimum, in dict insertion order.  We fold
over the (key, value) pairs since dict keys are distinct. -/
def closestPair (line : ℚ) (p0 : ℚ × ℤ) (ps : List (ℚ × ℤ)) : ℚ × ℤ :=
  ps.foldl (fun acc y => if |y.1 - line| < |acc.1 - line| then y else acc) p0

/-- Base odds from a prop-type's line table: exact lookup, otherwise
closest-line snapping with the ±50/±30 per-point line adjustment. -/
def baseFromLines (line : ℚ) (prop_lines : List (ℚ × ℤ)) : ℤ :=
  match lookupLine line prop_lines with
  | some b => b
  | none =>
    match prop_lines with
    | [] => 200
    | p :: ps =>
      let closest := closestPair line p ps
      let line_diff := line - closest.1
      if 0 < line_diff then closest.2 + pyInt (line_diff * 50)
      else closest.2 - pyInt (|line_diff| * 30)

/-- The base-odds part of `estimate_prop_odds`: table lookup with default
+200 for unknown prop types. -/
def estimateBaseOdds (prop_type : String) (line : ℚ) : ℤ :=
  match base_odds_map prop_type with
  | none => 200
  | some prop_lines => baseFromLines line prop_lines

/-- The hit-rate adjustment of `estimate_prop_odds`: `hit_rate > 0.8`
subtracts `int((hit_rate-0.8)*500)`, `hit_rate < 0.6` adds
`int((0.6-hit_rate)*800)`. -/
def hitRateAdjust (base_odds : ℤ) (hit_rate : ℚ) : ℤ :=
  if 4/5 < hit_rate then base_odds - pyInt ((hit_rate - 4/5) * 500)
  else if hit_rate < 3/5 then base_odds + pyInt ((3/5 - hit_rate) * 800)
  else base_odds

/-- `estimate_prop_odds` from `odds_math.py`: base odds, hit-rate adjustment,
then clamp to `[-500, 2000]` via `max(-500, min(base_odds, 2000))`. -/
def estimate_prop_odds (prop_type : String) (line : ℚ) (hit_rate : ℚ) : ℤ :=
  max (-500) (min (hitRateAdjust (estimateBaseOdds prop_type line) hit_rate) 2000)

lemma pyInt_of_nonneg (q : ℚ) (h : 0 ≤ q) : pyInt q = ⌊q⌋ := by
  unfold pyInt
  rw [if_pos h]

lemma pyInt_nonneg (q : ℚ) (h : 0 ≤ q) : 0 ≤ pyInt q := by
  rw [pyInt_of_nonneg q h]
  exact Int.le_floor.mpr (by exact_mod_cast h)

lemma pyInt_le_of_le (q : ℚ) (c : ℤ) (h0 : 0 ≤ q) (h : q ≤ (c : ℚ)) : pyInt q ≤ c := by
  rw [pyInt_of_nonneg q h0]
  exact (Int.floor_mono h).trans_eq (Int.floor_intCast c)

/-- C8 (amended): for any prop type and line, and any `hit_rate ∈ [0,1]`:
the result is clamped to `[-500, 2000]`; for `hit_rate > 0.8` the base odds
are reduced by `int((hit_rate-0.8)*500)`, which is at most 100; for
`hit_rate < 0.6` the base odds are increased by `int((0.6-hit_rate)*800)`,
which is at most **480** (not 320 as claimed); and the home-runs scenario
(line 0.5, hit rate 0.95) yields the table base +240 reduced by the
high-hit-rate adjustment 75, i.e. 165. -/
theorem estimate_prop_odds_spec (prop_type : String) (line hit_rate : ℚ)
    (h0 : 0 ≤ hit_rate) (h1 : hit_rate ≤ 1) :
    (-500 ≤ estimate_prop_odds prop_type line hit_rate ∧
      estimate_prop_odds prop_type line hit_rate ≤ 2000) ∧
    (4/5 < hit_rate →
      estimate_prop_odds prop_type line hit_rate =
        max (-500) (min (estimateBaseOdds prop_type line - pyInt ((hit_rate - 4/5) * 500)) 2000) ∧
      0 ≤ pyInt ((hit_rate - 4/5) * 500) ∧ pyInt ((hit_rate - 4/5) * 500) ≤ 100) ∧
    (hit_rate < 3/5 →
      estimate_prop_odds prop_type line hit_rate =
        max (-500) (min (estimateBaseOdds prop_type line + pyInt ((3/5 - hit_rate) * 800)) 2000) ∧
      0 ≤ pyInt ((3/5 - hit_rate) * 800) ∧ pyInt ((3/5 - hit_rate) * 800) ≤ 480) ∧
    estimate_prop_odds "home_runs" (1/2) (19/20) = 165 := by
  refine ⟨⟨le_max_left _ _, max_le (by norm_num) (min_le_right _ _)⟩, ?_, ?_, ?_⟩
  · intro hgt
    refine ⟨?_, pyInt_nonneg _ (by linarith), pyInt_le_of_le _ 100 (by linarith) (by push_cast; linarith)⟩
    unfold estimate_prop_odds hitRateAdjust
    rw [if_pos hgt]
  · intro hlt
    have hn : ¬ (4/5 : ℚ) < hit_rate := by linarith
    refine ⟨?_, pyInt_nonneg _ (by linarith), pyInt_le_of_le _ 480 (by linarith) (by push_cast; linarith)⟩
    unfold estimate_prop_odds hitRateAdjust
    rw [if_neg hn, if_pos hlt]
  · have hmap : base_odds_map "home_runs" = some [(1/2, 240), (3/2, 800)] := by
      unfold base_odds_map
      rw [if_neg (by decide), if_pos rfl]
    have hl : lookupLine (1/2) [((1:ℚ)/2, (240:ℤ)), (3/2, 800)] = some 240 := by
      unfold lookupLine
      rw [if_pos rfl]
    have hbase : estimateBaseOdds "home_runs" (1/2) = 240 := by
      unfold estimateBaseOdds
      rw [hmap]
      show baseFromLines (1/2) [(1/2, 240), (3/2, 800)] = 240
      unfold baseFromLines
      rw [hl]
    have hadj : pyInt (((19:ℚ)/20 - 4/5) * 500) = 75 := by
      have : ((19:ℚ)/20 - 4/5) * 500 = 75 := by norm_num
      rw [this, pyInt_of_nonneg _ (by norm_num)]
      norm_num
    unfold estimate_prop_odds hitRateAdjust
    rw [if_pos (by norm_num : (4:ℚ)/5 < 19/20), hbase, hadj]
    norm_num

/-- C8 witness: the amended theorem applied at prop type `"hits"`, line 0.5,
hit rate 0.5. -/
theorem estimate_prop_odds_spec_witness :
    (0 ≤ (1/2 : ℚ) ∧ (1/2 : ℚ) ≤ 1) ∧
    ((-500 ≤ estimate_prop_odds "hits" (1/2) (1/2) ∧
      estimate_prop_odds "hits" (1/2) (1/2) ≤ 2000) ∧
    ((4/5 : ℚ) < 1/2 →
      estimate_prop_odds "hits" (1/2) (1/2) =
        max (-500) (min (estimateBaseOdds "hits" (1/2) - pyInt (((1/2 : ℚ) - 4/5) * 500)) 2000) ∧
      0 ≤ pyInt (((1/2 : ℚ) - 4/5) * 500) ∧ pyInt (((1/2 : ℚ) - 4/5) * 500) ≤ 100) ∧
    ((1/2 : ℚ) < 3/5 →
      estimate_prop_odds "hits" (1/2) (1/2) =
        max (-500) (min (estimateBaseOdds "hits" (1/2) + pyInt (((3/5 : ℚ) - 1/2) * 800)) 2000) ∧
      0 ≤ pyInt (((3/5 : ℚ) - 1/2) * 800) ∧ pyInt (((3/5 : ℚ) - 1/2) * 800) ≤ 480) ∧
    estimate_prop_odds "home_runs" (1/2) (19/20) = 165) :=
  ⟨⟨by norm_num, by norm_num⟩,
   estimate_prop_odds_spec "hits" (1/2) (1/2) (by norm_num) (by norm_num)⟩

/-- C8 counterexample: at prop type `"hits"`, line 0.5, hit rate 0, the
low-hit-rate addition is `int(0.6*800) = 480`, which exceeds the claimed
maximum of 320 (the result is 180 + 480 = 660). -/
theorem estimate_prop_odds_low_adjust_exceeds_320 :
    estimate_prop_odds "hits" (1/2) 0 = 660 ∧
    estimate_prop_odds "hits" (1/2) 0 - estimateBaseOdds "hits" (1/2) = 480 ∧
    ¬ ((480 : ℤ) ≤ 320) := by
  have hbase : estimateBaseOdds "hits" (1/2) = 180 := by
    have hmap : base_odds_map "hits" = some [(1/2, 180), (3/2, 240), (5/2, 400)] := by
      unfold base_odds_map
      rw [if_pos rfl]
    have hl : lookupLine (1/2) [((1:ℚ)/2, (180:ℤ)), (3/2, 240), (5/2, 400)] = some 180 := by
      unfold lookupLine
      rw [if_pos rfl]
    unfold estimateBaseOdds
    rw [hmap]
    show baseFromLines (1/2) [(1/2, 180), (3/2, 240), (5/2, 400)] = 180
    unfold baseFromLines
    rw [hl]
  have hadj : pyInt (((3:ℚ)/5 - 0) * 800) = 480 := by
    have : ((3:ℚ)/5 - 0) * 800 = 480 := by norm_num
    rw [this, pyInt_of_nonneg _ (by norm_num)]
    norm_num
  have hmain : estimate_prop_odds "hits" (1/2) 0 = 660 := by
    unfold estimate_prop_odds hitRateAdjust
    rw [if_neg (by norm_num : ¬ (4:ℚ)/5 < 0), if_pos (by norm_num : (0:ℚ) < 3/5), hbase, hadj]
    norm_num
  exact ⟨hmain, by rw [hmain, hbase]; norm_num, by norm_num⟩

/-! ## C6: `PropAnalyzer.calculate_confidence_score` (`src/utils/prop_analyzer.py`)

The method obtains `historical_hit_rate` and `recent_form_weight` from its
CSV-backed getters; the claim quantifies over those two values, so they are
taken as parameters here.  The remaining `ConfidenceFactors` fields
(`injury_factor` etc.) are the constant 1.0 in the source. -/

/-- `calculate_confidence_score` from `prop_analyzer.py`:
`base = historical_hit_rate*100`, `recent_adjustment = (recent_form_weight-0.5)*40`,
multiplied by the four constant-1.0 factors, clamped via `max(0, min(100, _))`. -/
def calculate_confidence_score (historical_hit_rate recent_form_weight : ℚ) : ℚ :=
  let base_confidence := historical_hit_rate * 100
  let recent_adjustment := (recent_form_weight - 1/2) * 40
  let final_confidence := (base_confidence + recent_adjustment) * 1 * 1 * 1 * 1
  max 0 (min 100 final_confidence)

/-- C6: for any historical hit rate in `[0,1]` and any recent form weight in
`[0,1]`, the confidence score lies in `[0,100]`. -/
theorem calculate_confidence_score_range (historical_hit_rate recent_form_weight : ℚ)
    (hh0 : 0 ≤ historical_hit_rate) (hh1 : historical_hit_rate ≤ 1)
    (hr0 : 0 ≤ recent_form_weight) (hr1 : recent_form_weight ≤ 1) :
    0 ≤ calculate_confidence_score historical_hit_rate recent_form_weight ∧
    calculate_confidence_score historical_hit_rate recent_form_weight ≤ 100 := by
  unfold calculate_confidence_score
  exact ⟨le_max_left _ _, max_le (by norm_num) (min_le_left _ _)⟩

/-- C6 witness: the range theorem applied at hit rate 0.5 and form weight 0.5. -/
theorem calculate_confidence_score_range_witness :
    (0 ≤ (1/2 : ℚ) ∧ (1/2 : ℚ) ≤ 1) ∧
    0 ≤ calculate_confidence_score (1/2) (1/2) ∧
    calculate_confidence_score (1/2) (1/2) ≤ 100 :=
  ⟨⟨by norm_num, by norm_num⟩,
   calculate_confidence_score_range (1/2) (1/2) (by norm_num) (by norm_num)
     (by norm_num) (by norm_num)⟩

/-! ## C7: `PropAnalyzer.get_recent_form_weight` (`src/utils/prop_analyzer.py`) -/

/-- One historical game row for a fixed player and prop type.  The source
sorts rows by the `date` column; dates are modelled as rationals ordered the
same way. -/
structure GameRecord where
  date : ℚ
  hit : Bool
deriving DecidableEq, Repr

/-- Stable insertion of `p` into a list sorted descending by `key`. -/
def insertDescBy (key : α → ℚ) (p : α) : List α → List α
  | [] => [p]
  | q :: qs => if key q ≤ key p then p :: q :: qs else q :: insertDescBy key p qs

/-- Stable sort, descending by `key` (models Python's stable
`sorted(..., reverse=True)` / pandas `sort_values(ascending=False)`). -/
def sortDescBy (key : α → ℚ) : List α → List α
  | [] => []
  | p :: ps => insertDescBy key p (sortDescBy key ps)

/-- `get_recent_performance` from `prop_analyzer.py`, with the player /
prop-type filtering already applied: sort the player's rows by date
descending and keep the first `games_back`. -/
def get_recent_performance (history : List GameRecord) (games_back : ℕ) : List GameRecord :=
  (sortDescBy (fun g => g.date) history).take games_back

/-- The `weighted_sum` accumulator of `get_recent_form_weight`'s loop:
`for i, game in enumerate(recent_performance): weight = games_back - i;
weighted_sum += game.get('hit', 0) * weight` (a `True` hit contributes the
weight, a `False`/missing hit contributes 0). -/
def weightedSumAcc (games_back : ℕ) : List GameRecord → ℕ → ℕ
  | [], _ => 0
  | g :: rest, i => (if g.hit then games_back - i else 0) + weightedSumAcc games_back rest (i + 1)

/-- The `total_weight` accumulator of the same loop: `total_weight += weight`. -/
def totalWeightAcc (games_back : ℕ) : List GameRecord → ℕ → ℕ
  | [], _ => 0
  | _ :: rest, i => (games_back - i) + totalWeightAcc games_back rest (i + 1)

/-- `get_recent_form_weight` from `prop_analyzer.py`: neutral 0.5 on an empty
recent-performance list, otherwise `weighted_sum / total_weight` (with the
source's `if total_weight > 0 else 0.5` guard). -/
def get_recent_form_weight (history : List GameRecord) (games_back : ℕ) : ℚ :=
  if get_recent_performance history games_back = [] then 1/2
  else if 0 < totalWeightAcc games_back (get_recent_performance history games_back) 0 then
    ((weightedSumAcc games_back (get_recent_performance history games_back) 0 : ℕ) : ℚ) /
    ((totalWeightAcc games_back (get_recent_performance history games_back) 0 : ℕ) : ℚ)
  else 1/2

lemma insertDescBy_length (key : α → ℚ) (p : α) (l : List α) :
    (insertDescBy key p l).length = l.length + 1 := by
  induction l with
  | nil => rfl
  | cons q qs ih =>
    unfold insertDescBy
    by_cases h : key q ≤ key p
    · rw [if_pos h]
      rfl
    · rw [if_neg h]
      simp [ih]

lemma sortDescBy_length (key : α → ℚ) (l : List α) :
    (sortDescBy key l).length = l.length := by
  induction l with
  | nil => rfl
  | cons p ps ih =>
    unfold sortDescBy
    rw [insertDescBy_length, ih]
    rfl

lemma weightedSumAcc_eq (games_back : ℕ) (l : List GameRecord) :
    ∀ i0 : ℕ, weightedSumAcc games_back l i0 =
      ∑ j in Finset.range l.length,
        (if (l.getD j ⟨0, false⟩).hit then games_back - (i0 + j) else 0) := by
  induction l with
  | nil => intro i0; simp [weightedSumAcc]
  | cons g rest ih =>
    intro i0
    unfold weightedSumAcc
    rw [ih (i0 + 1)]
    rw [List.length_cons, Finset.sum_range_succ' _ rest.length]
    simp only [List.getD_cons_zero, List.getD_cons_succ, Nat.add_zero]
    rw [Nat.add_comm]
    congr 1
    exact Finset.sum_congr rfl fun j _ => by
      have : i0 + (j + 1) = i0 + 1 + j := by omega
      rw [this]

lemma totalWeightAcc_eq (games_back : ℕ) (l : List GameRecord) :
    ∀ i0 : ℕ, totalWeightAcc games_back l i0 =
      ∑ j in Finset.range l.length, (games_back - (i0 + j)) := by
  induction l with
  | nil => intro i0; simp [totalWeightAcc]
  | cons g rest ih =>
    intro i0
    unfold totalWeightAcc
    rw [ih (i0 + 1)]
    rw [List.length_cons, Finset.sum_range_succ' _ rest.length]
    simp only [Nat.add_zero]
    rw [Nat.add_comm]
    congr 1
    exact Finset.sum_congr rfl fun j _ => by
      have : i0 + (j + 1) = i0 + 1 + j := by omega
      rw [this]

/-- C7 (amended): with no recorded games the result is the neutral 0.5; with
recorded games, the result is the weighted average in which the `i`-th most
recent considered game (0-indexed) gets integer weight `N - i`: the most
recent gets weight `N`, and the oldest *considered* game gets weight
`N - k + 1` where `k = min N (number of games)` — this equals 1 exactly when
the player has at least `N` recorded games, not in general as claimed. -/
theorem get_recent_form_weight_spec (history : List GameRecord) (N : ℕ) (hN : 1 ≤ N) :
    get_recent_form_weight [] N = 1/2 ∧
    (history ≠ [] →
      (get_recent_performance history N).length = min N history.length ∧
      get_recent_form_weight history N =
        ((∑ i in Finset.range (get_recent_performance history N).length,
            (if ((get_recent_performance history N).getD i ⟨0, false⟩).hit then N - i else 0) : ℕ) : ℚ) /
        ((∑ i in Finset.range (get_recent_performance history N).length, (N - i) : ℕ) : ℚ)) := by
  constructor
  · have h : get_recent_performance ([] : List GameRecord) N = [] := by
      show (sortDescBy (fun g => g.date) []).take N = []
      rw [show sortDescBy (fun g : GameRecord => g.date) [] = [] from rfl]
      exact List.take_nil
    unfold get_recent_form_weight
    rw [h, if_pos rfl]
  · intro hne
    have hlen : (get_recent_performance history N).length = min N history.length := by
      unfold get_recent_performance
      rw [List.length_take, sortDescBy_length]
    refine ⟨hlen, ?_⟩
    have hpos : 0 < (get_recent_performance history N).length := by
      rw [hlen]
      have : 0 < history.length := List.length_pos.mpr hne
      omega
    have hne' : get_recent_performance history N ≠ [] := by
      intro hc
      rw [hc] at hpos
      exact absurd hpos (by simp)
    unfold get_recent_form_weight
    rw [if_neg hne', weightedSumAcc_eq N _ 0, totalWeightAcc_eq N _ 0]
    simp only [Nat.zero_add]
    have htw : 0 < ∑ i in Finset.range (get_recent_performance history N).length, (N - i) := by
      have h0mem : 0 ∈ Finset.range (get_recent_performance history N).length :=
        Finset.mem_range.mpr hpos
      have hterm : 0 < N - 0 := by omega
      calc 0 < N - 0 := hterm
        _ ≤ ∑ i in Finset.range (get_recent_performance history N).length, (N - i) :=
          Finset.single_le_sum (f := fun i => N - i) (fun i _ => Nat.zero_le _) h0mem
    rw [if_pos htw]

/-- C7 witness: the amended theorem applied to a single-game history with
`N = 5` (the lone game gets weight 5, and the result is 5/5 = 1). -/
theorem get_recent_form_weight_spec_witness :
    (1 ≤ 5 ∧ ([⟨(1:ℚ), true⟩] : List GameRecord) ≠ []) ∧
    get_recent_form_weight [] 5 = 1/2 ∧
    (([⟨(1:ℚ), true⟩] : List GameRecord) ≠ [] →
      (get_recent_performance [⟨(1:ℚ), true⟩] 5).length = min 5 ([⟨(1:ℚ), true⟩] : List GameRecord).length ∧
      get_recent_form_weight [⟨(1:ℚ), true⟩] 5 =
        ((∑ i in Finset.range (get_recent_performance [⟨(1:ℚ), true⟩] 5).length,
            (if ((get_recent_performance [⟨(1:ℚ), true⟩] 5).getD i ⟨0, false⟩).hit then 5 - i else 0) : ℕ) : ℚ) /
        ((∑ i in Finset.range (get_recent_performance [⟨(1:ℚ), true⟩] 5).length, (5 - i) : ℕ) : ℚ)) :=
  ⟨⟨by norm_num, by simp⟩, get_recent_form_weight_spec [⟨(1:ℚ), true⟩] 5 (by norm_num)⟩

/-- The weight the claim assigns to the `i`-th most recent of `k` considered
games: linear from `N` (most recent) down to `1` (oldest considered). -/
def claimWeight (k N i : ℕ) : ℚ :=
  1 + ((k - 1 - i : ℕ) : ℚ) * ((N : ℚ) - 1) / ((k : ℚ) - 1)

/-- Modelled from the spec's words, for comparison: a "linearly time-weighted
average of boolean hit/miss over the last N games (most recent game gets
weight N, oldest gets weight 1)" — over `k` considered games the weights
interpolate linearly from `N` down to `1`. -/
def claimFormWeight (rp : List GameRecord) (N : ℕ) : ℚ :=
  if rp.length = 0 then 1/2
  else
    (∑ i in Finset.range rp.length,
      (if (rp.getD i ⟨0, false⟩).hit then claimWeight rp.length N i else 0)) /
    (∑ i in Finset.range rp.length, claimWeight rp.length N i)

/-- C7 counterexample: a player with two recorded games (hit then miss, most
recent first after sorting), `N = 5`.  The code weights them 5 and 4, giving
5/9; under the claim the oldest considered game gets weight 1, giving 5/6.
So "the oldest game considered gets weight 1" fails when fewer than `N`
games are recorded. -/
theorem get_recent_form_weight_counterexample :
    get_recent_form_weight [⟨2, true⟩, ⟨1, false⟩] 5 = 5/9 ∧
    claimFormWeight (get_recent_performance [⟨2, true⟩, ⟨1, false⟩] 5) 5 = 5/6 ∧
    (5 : ℚ)/9 ≠ 5/6 := by
  have hs : sortDescBy (fun g : GameRecord => g.date) [⟨2, true⟩, ⟨1, false⟩] =
      [⟨2, true⟩, ⟨1, false⟩] := by
    norm_num [sortDescBy, insertDescBy]
  have hrp : get_recent_performance [⟨2, true⟩, ⟨1, false⟩] 5 =
      [⟨2, true⟩, ⟨1, false⟩] := by
    show (sortDescBy (fun g : GameRecord => g.date) [⟨2, true⟩, ⟨1, false⟩]).take 5 =
      [⟨2, true⟩, ⟨1, false⟩]
    rw [hs]
    rfl
  refine ⟨?_, ?_, by norm_num⟩
  · unfold get_recent_form_weight
    rw [hrp]
    have hws : weightedSumAcc 5 [⟨2, true⟩, ⟨1, false⟩] 0 = 5 := by
      unfold weightedSumAcc
      rfl
    have htw : totalWeightAcc 5 [⟨2, true⟩, ⟨1, false⟩] 0 = 9 := by
      unfold totalWeightAcc
      rfl
    rw [if_neg (by simp), hws, htw, if_pos (by norm_num)]
    norm_num
  · rw [hrp]
    unfold claimFormWeight
    rw [if_neg (by simp)]
    simp only [List.length_cons, List.length_nil, Finset.sum_range_succ, Finset.sum_range_zero,
      List.getD_cons_zero, List.getD_cons_succ]
    norm_num [claimWeight]

/-! ## C1: `find_parlay_combination` (`parlay-optimizer/utils/odds_math.py`) -/

/-- A candidate prop dict as consumed by `find_parlay_combination`; the
`.get` defaults (`estimated_odds` +200, `confidence_score` 0) are the field
defaults. -/
structure PropD where
  estimated_odds : ℤ := 200
  confidence_score : ℚ := 0
deriving DecidableEq, Repr

/-- `itertools.combinations(l, k)`: all `k`-element subsequences of `l`, in
lexicographic order of positions (combinations containing the head first). -/
def combinations {α : Type} : ℕ → List α → List (List α)
  | 0, _ => [[]]
  | _ + 1, [] => []
  | k + 1, x :: xs => (combinations k xs).map (fun c => x :: c) ++ combinations (k + 1) xs

/-- Combined decimal odds of a combo:
`combined_decimal = 1.0; for odds in combo_odds: combined_decimal *= american_to_decimal(odds)`.
Uses the total value function; the theorems assume no prop has odds 0 (where
Python would raise `ZeroDivisionError`). -/
def comboDecimal (combo : List PropD) : ℚ :=
  (combo.map (fun p => americanToDecimalVal p.estimated_odds)).foldl (fun a b => a * b) 1

/-- `diff = abs(combined_decimal - target_decimal)`. -/
def comboDiff (target_decimal : ℚ) (combo : List PropD) : ℚ :=
  |comboDecimal combo - target_decimal|

/-- The enumeration order of the double loop
`for num_legs in range(2, min(max_legs+1, len(sorted_props)+1)):
   for combo in combinations(sorted_props[:min(20, len(sorted_props))], num_legs)`,
flattened. -/
def parlayCombos (available_props : List PropD) (max_legs : ℕ) : List (List PropD) :=
  (List.range' 2
      (min (max_legs + 1) ((sortDescBy (fun p => p.confidence_score) available_props).length + 1) - 2)).flatMap
    (fun num_legs =>
      combinations num_legs
        ((sortDescBy (fun p => p.confidence_score) available_props).take
          (min 20 (sortDescBy (fun p => p.confidence_score) available_props).length)))

/-- The search loop of `find_parlay_combination` after the first combo has
become the best (`d < float('inf')` always holds, so the first combo always
replaces the initial empty best): track the minimum-difference combo, and
return immediately once an improving combo is within 10% of the target
(Python `break`s the inner loop and then the outer loop). -/
def searchLoop (target_decimal : ℚ) :
    List (List PropD) → List PropD → ℚ → List PropD
  | [], best_combination, _ => best_combination
  | combo :: rest, best_combination, best_diff =>
    if comboDiff target_decimal combo < best_diff then
      if comboDiff target_decimal combo < target_decimal * (1/10) then combo
      else searchLoop target_decimal rest combo (comboDiff target_decimal combo)
    else searchLoop target_decimal rest best_combination best_diff

/-- The whole search: `best_combination = []`, `best_diff = float('inf')`;
the first combo (if any) always becomes the best, possibly exiting early. -/
def runSearch (target_decimal : ℚ) : List (List PropD) → List PropD
  | [] => []
  | c0 :: rest =>
    if comboDiff target_decimal c0 < target_decimal * (1/10) then c0
    else searchLoop target_decimal rest c0 (comboDiff target_decimal c0)

/-- `find_parlay_combination` from `odds_math.py`: convert the target to
decimal (raising on target 0), sort by confidence descending, enumerate
combos of sizes 2..max_legs from the top 20, minimize the decimal-odds
difference with a 10% early exit. -/
def find_parlay_combination (target_odds : ℤ) (available_props : List PropD)
    (max_legs : ℕ) : Except PyError (List PropD) :=
  match american_to_decimal target_odds with
  | .error e => .error e
  | .ok target_decimal => .ok (runSearch target_decimal (parlayCombos available_props max_legs))

lemma mem_combinations_length {α : Type} :
    ∀ (k : ℕ) (l : List α) (c : List α), c ∈ combinations k l → c.length = k := by
  intro k l
  induction l generalizing k with
  | nil =>
    intro c hc
    match k with
    | 0 =>
      rw [show combinations 0 ([] : List α) = [[]] from rfl, List.mem_singleton] at hc
      rw [hc]
      rfl
    | k + 1 => cases hc
  | cons x xs ih =>
    intro c hc
    match k with
    | 0 =>
      rw [show combinations 0 (x :: xs) = [[]] from rfl, List.mem_singleton] at hc
      rw [hc]
      rfl
    | k + 1 =>
      rw [show combinations (k + 1) (x :: xs) =
        (combinations k xs).map (fun c => x :: c) ++ combinations (k + 1) xs from rfl,
        List.mem_append] at hc
      rcases hc with hc | hc
      · obtain ⟨c', hc', rfl⟩ := List.mem_map.mp hc
        rw [List.length_cons, ih k c' hc']
      · exact ih (k + 1) c hc

lemma mem_combinations_sublist {α : Type} :
    ∀ (k : ℕ) (l : List α) (c : List α), c ∈ combinations k l → c.Sublist l := by
  intro k l
  induction l generalizing k with
  | nil =>
    intro c hc
    match k with
    | 0 =>
      rw [show combinations 0 ([] : List α) = [[]] from rfl, List.mem_singleton] at hc
      rw [hc]
    | k + 1 => cases hc
  | cons x xs ih =>
    intro c hc
    match k with
    | 0 =>
      rw [show combinations 0 (x :: xs) = [[]] from rfl, List.mem_singleton] at hc
      rw [hc]
      exact List.nil_sublist _
    | k + 1 =>
      rw [show combinations (k + 1) (x :: xs) =
        (combinations k xs).map (fun c => x :: c) ++ combinations (k + 1) xs from rfl,
        List.mem_append] at hc
      rcases hc with hc | hc
      · obtain ⟨c', hc', rfl⟩ := List.mem_map.mp hc
        exact (ih k c' hc').cons₂ x
      · exact (ih (k + 1) c hc).cons x

lemma combinations_ne_nil {α : Type} :
    ∀ (k : ℕ) (l : List α), k ≤ l.length → combinations k l ≠ [] := by
  intro k l
  induction l generalizing k with
  | nil =>
    intro hk
    match k with
    | 0 => exact fun h => List.noConfusion h
    | k + 1 => exact absurd hk (by simp)
  | cons x xs ih =>
    intro hk
    match k with
    | 0 => exact fun h => List.noConfusion h
    | k + 1 =>
      show (combinations k xs).map (fun c => x :: c) ++ combinations (k + 1) xs ≠ []
      intro h
      rcases List.append_eq_nil.mp h with ⟨h1, _⟩
      have hk' : k ≤ xs.length := by
        rw [List.length_cons] at hk
        omega
      exact ih k hk' (List.map_eq_nil_iff.mp h1)

lemma mem_parlayCombos (pool : List PropD) (max_legs : ℕ) (r : List PropD)
    (h : r ∈ parlayCombos pool max_legs) :
    2 ≤ r.length ∧ r.length ≤ max_legs ∧
      ∀ p ∈ r, p ∈ (sortDescBy (fun q => q.confidence_score) pool).take
        (min 20 (sortDescBy (fun q => q.confidence_score) pool).length) := by
  unfold parlayCombos at h
  rw [List.mem_flatMap] at h
  obtain ⟨k, hk, hr⟩ := h
  rw [List.mem_range'_1] at hk
  have hlen := mem_combinations_length k _ r hr
  have hsub := mem_combinations_sublist k _ r hr
  exact ⟨by omega, by omega, fun p hp => hsub.subset hp⟩

lemma searchLoop_spec (td : ℚ) (combos : List (List PropD)) :
    ∀ best : List PropD, td * (1/10) ≤ comboDiff td best →
      (searchLoop td combos best (comboDiff td best) = best ∨
        searchLoop td combos best (comboDiff td best) ∈ combos) ∧
      comboDiff td (searchLoop td combos best (comboDiff td best)) ≤ comboDiff td best ∧
      ((∀ c ∈ combos,
          comboDiff td (searchLoop td combos best (comboDiff td best)) ≤ comboDiff td c) ∨
       (comboDiff td (searchLoop td combos best (comboDiff td best)) < td * (1/10) ∧
        ∃ pre post, combos = pre ++ searchLoop td combos best (comboDiff td best) :: post ∧
          ∀ c ∈ pre, td * (1/10) ≤ comboDiff td c)) := by
  induction combos with
  | nil =>
    intro best _
    refine ⟨Or.inl rfl, le_refl _, Or.inl ?_⟩
    intro c hc
    cases hc
  | cons combo rest ih =>
    intro best hb
    by_cases hd : comboDiff td combo < comboDiff td best
    · by_cases hth : comboDiff td combo < td * (1/10)
      · have hres : searchLoop td (combo :: rest) best (comboDiff td best) = combo := by
          unfold searchLoop
          rw [if_pos hd, if_pos hth]
        rw [hres]
        refine ⟨Or.inr (List.mem_cons_self _ _), le_of_lt hd,
          Or.inr ⟨hth, [], rest, rfl, ?_⟩⟩
        intro c hc
        cases hc
      · have hth' : td * (1/10) ≤ comboDiff td combo := not_lt.mp hth
        have hres : searchLoop td (combo :: rest) best (comboDiff td best) =
            searchLoop td rest combo (comboDiff td combo) := by
          simp only [searchLoop]
          rw [if_pos hd, if_neg hth]
        obtain ⟨hmem, hle, hdisj⟩ := ih combo hth'
        rw [hres]
        refine ⟨?_, hle.trans (le_of_lt hd), ?_⟩
        · rcases hmem with h | h
          · exact Or.inr (by rw [h]; exact List.mem_cons_self _ _)
          · exact Or.inr (List.mem_cons_of_mem _ h)
        · rcases hdisj with hmin | ⟨hlt, pre, post, heq, hpre⟩
          · refine Or.inl fun c hc => ?_
            rcases List.mem_cons.mp hc with rfl | hc'
            · exact hle
            · exact hmin c hc'
          · refine Or.inr ⟨hlt, combo :: pre, post, by rw [List.cons_append, ← heq],
              fun c hc => ?_⟩
            rcases List.mem_cons.mp hc with rfl | hc'
            · exact hth'
            · exact hpre c hc'
    · have hd' : comboDiff td best ≤ comboDiff td combo := not_lt.mp hd
      have hres : searchLoop td (combo :: rest) best (comboDiff td best) =
          searchLoop td rest best (comboDiff td best) := by
        simp only [searchLoop]
        rw [if_neg hd]
      obtain ⟨hmem, hle, hdisj⟩ := ih best hb
      rw [hres]
      refine ⟨?_, hle, ?_⟩
      · rcases hmem with h | h
        · exact Or.inl h
        · exact Or.inr (List.mem_cons_of_mem _ h)
      · rcases hdisj with hmin | ⟨hlt, pre, post, heq, hpre⟩
        · refine Or.inl fun c hc => ?_
          rcases List.mem_cons.mp hc with rfl | hc'
          · exact hle.trans hd'
          · exact hmin c hc'
        · refine Or.inr ⟨hlt, combo :: pre, post, by rw [List.cons_append, ← heq],
            fun c hc => ?_⟩
          rcases List.mem_cons.mp hc with rfl | hc'
          · exact hb.trans hd'
          · exact hpre c hc'

lemma runSearch_spec (td : ℚ) (combos : List (List PropD)) (hne : combos ≠ []) :
    runSearch td combos ∈ combos ∧
    ((∀ c ∈ combos, comboDiff td (runSearch td combos) ≤ comboDiff td c) ∨
     (comboDiff td (runSearch td combos) < td * (1/10) ∧
      ∃ pre post, combos = pre ++ runSearch td combos :: post ∧
        ∀ c ∈ pre, td * (1/10) ≤ comboDiff td c)) := by
  match combos with
  | [] => exact absurd rfl hne
  | c0 :: rest =>
    by_cases hth : comboDiff td c0 < td * (1/10)
    · have hres : runSearch td (c0 :: rest) = c0 := by
        show (if comboDiff td c0 < td * (1/10) then c0
          else searchLoop td rest c0 (comboDiff td c0)) = c0
        rw [if_pos hth]
      rw [hres]
      refine ⟨List.mem_cons_self _ _, Or.inr ⟨hth, [], rest, rfl, ?_⟩⟩
      intro c hc
      cases hc
    · have hth' : td * (1/10) ≤ comboDiff td c0 := not_lt.mp hth
      have hres : runSearch td (c0 :: rest) =
          searchLoop td rest c0 (comboDiff td c0) := by
        show (if comboDiff td c0 < td * (1/10) then c0
          else searchLoop td rest c0 (comboDiff td c0)) =
          searchLoop td rest c0 (comboDiff td c0)
        rw [if_neg hth]
      obtain ⟨hmem, hle, hdisj⟩ := searchLoop_spec td rest c0 hth'
      rw [hres]
      constructor
      · rcases hmem with h | h
        · rw [h]
          exact List.mem_cons_self _ _
        · exact List.mem_cons_of_mem _ h
      · rcases hdisj with hmin | ⟨hlt, pre, post, heq, hpre⟩
        · refine Or.inl fun c hc => ?_
          rcases List.mem_cons.mp hc with rfl | hc'
          · exact hle
          · exact hmin c hc'
        · refine Or.inr ⟨hlt, c0 :: pre, post, by rw [List.cons_append, ← heq],
            fun c hc => ?_⟩
          rcases List.mem_cons.mp hc with rfl | hc'
          · exact hth'
          · exact hpre c hc'

/-- C1: for a pool of at least 2 props, `max_legs ≥ 2`, a non-zero target,
and no zero-odds props (where Python would raise), the returned combination
is one of the enumerated subsets of size 2..max_legs of the top-20
confidence-sorted prefix, and it either minimizes the decimal-odds
difference over the whole enumeration or is the first enumerated subset
within 10% of the target decimal (the early-exit case). -/
theorem find_parlay_combination_spec (target_odds : ℤ) (pool : List PropD) (max_legs : ℕ)
    (hpool : 2 ≤ pool.length) (hlegs : 2 ≤ max_legs) (htgt : target_odds ≠ 0)
    (hprops : ∀ p ∈ pool, p.estimated_odds ≠ 0) :
    ∃ r, find_parlay_combination target_odds pool max_legs = .ok r ∧
      r ∈ parlayCombos pool max_legs ∧
      2 ≤ r.length ∧ r.length ≤ max_legs ∧
      (∀ p ∈ r, p ∈ (sortDescBy (fun q => q.confidence_score) pool).take
        (min 20 (sortDescBy (fun q => q.confidence_score) pool).length)) ∧
      ((∀ c ∈ parlayCombos pool max_legs,
          comboDiff (americanToDecimalVal target_odds) r ≤
            comboDiff (americanToDecimalVal target_odds) c) ∨
       (comboDiff (americanToDecimalVal target_odds) r <
          americanToDecimalVal target_odds * (1/10) ∧
        ∃ pre post, parlayCombos pool max_legs = pre ++ r :: post ∧
          ∀ c ∈ pre, americanToDecimalVal target_odds * (1/10) ≤
            comboDiff (americanToDecimalVal target_odds) c)) := by
  clear hprops
  have hsortlen : (sortDescBy (fun q : PropD => q.confidence_score) pool).length =
      pool.length := sortDescBy_length _ _
  have htoplen : ((sortDescBy (fun q : PropD => q.confidence_score) pool).take
      (min 20 (sortDescBy (fun q : PropD => q.confidence_score) pool).length)).length =
      min 20 pool.length := by
    rw [List.length_take, hsortlen]
    omega
  have h2top : 2 ≤ ((sortDescBy (fun q : PropD => q.confidence_score) pool).take
      (min 20 (sortDescBy (fun q : PropD => q.confidence_score) pool).length)).length := by
    rw [htoplen]
    omega
  have hcne : parlayCombos pool max_legs ≠ [] := by
    obtain ⟨c2, hc2⟩ := List.exists_mem_of_ne_nil _ (combinations_ne_nil 2 _ h2top)
    have : c2 ∈ parlayCombos pool max_legs := by
      unfold parlayCombos
      rw [List.mem_flatMap]
      refine ⟨2, ?_, hc2⟩
      rw [List.mem_range'_1]
      constructor
      · exact le_refl 2
      · rw [hsortlen]
        omega
    exact List.ne_nil_of_mem this
  have hfind : find_parlay_combination target_odds pool max_legs =
      .ok (runSearch (americanToDecimalVal target_odds) (parlayCombos pool max_legs)) := by
    unfold find_parlay_combination
    rw [american_to_decimal_eq_val target_odds htgt]
  obtain ⟨hmem, hdisj⟩ :=
    runSearch_spec (americanToDecimalVal target_odds) (parlayCombos pool max_legs) hcne
  obtain ⟨hlen2, hlenM, htake⟩ := mem_parlayCombos pool max_legs _ hmem
  exact ⟨runSearch (americanToDecimalVal target_odds) (parlayCombos pool max_legs),
    hfind, hmem, hlen2, hlenM, htake, hdisj⟩

/-- C1 witness: the search theorem applied to a two-prop pool (odds +150 at
confidence 90, odds -110 at confidence 80) with target +500 and max legs 2. -/
theorem find_parlay_combination_spec_witness :
    (2 ≤ ([⟨150, 90⟩, ⟨-110, 80⟩] : List PropD).length ∧ 2 ≤ 2 ∧ (500:ℤ) ≠ 0 ∧
      ∀ p ∈ ([⟨150, 90⟩, ⟨-110, 80⟩] : List PropD), p.estimated_odds ≠ 0) ∧
    ∃ r, find_parlay_combination 500 ([⟨150, 90⟩, ⟨-110, 80⟩] : List PropD) 2 = .ok r ∧
      r ∈ parlayCombos ([⟨150, 90⟩, ⟨-110, 80⟩] : List PropD) 2 ∧
      2 ≤ r.length ∧ r.length ≤ 2 ∧
      (∀ p ∈ r, p ∈ (sortDescBy (fun q : PropD => q.confidence_score)
          ([⟨150, 90⟩, ⟨-110, 80⟩] : List PropD)).take
        (min 20 (sortDescBy (fun q : PropD => q.confidence_score)
          ([⟨150, 90⟩, ⟨-110, 80⟩] : List PropD)).length)) ∧
      ((∀ c ∈ parlayCombos ([⟨150, 90⟩, ⟨-110, 80⟩] : List PropD) 2,
          comboDiff (americanToDecimalVal 500) r ≤ comboDiff (americanToDecimalVal 500) c) ∨
       (comboDiff (americanToDecimalVal 500) r < americanToDecimalVal 500 * (1/10) ∧
        ∃ pre post, parlayCombos ([⟨150, 90⟩, ⟨-110, 80⟩] : List PropD) 2 = pre ++ r :: post ∧
          ∀ c ∈ pre, americanToDecimalVal 500 * (1/10) ≤
            comboDiff (americanToDecimalVal 500) c)) :=
  ⟨⟨by norm_num, by norm_num, by norm_num, by decide⟩,
   find_parlay_combination_spec 500 [⟨150, 90⟩, ⟨-110, 80⟩] 2 (by norm_num) (by norm_num)
     (by norm_num) (by decide)⟩

/-! ## C2: `ParlayBuilder` (`src/services/parlay_builder.py`)

The builder's dataclasses live in `src/models/parlay.py`, which is not in
the source snapshot (only imported); they are modelled from the spec's data
model.  Randomness (`random.randint`, `random.shuffle`) and the per-attempt
retry loop are modelled by explicit oracle parameters, so the theorems
quantify over every random outcome.  Cosmetic `Parlay` fields that no code
path reads (`id`, `created_at`, `game_date`, `description`) are omitted. -/

/-- Modelled from the spec: tier enumeration (`TierType`) from the missing
`src/models/parlay.py` — Free/Premium/GOAT. -/
inductive TierType where
  | free
  | premium
  | goat
deriving DecidableEq, Repr

/-- Modelled from the spec: sport enumeration (`SportType`) from the missing
`src/models/parlay.py`; the builder treats it opaquely. -/
inductive SportType where
  | mlb
  | nfl
  | nba
deriving DecidableEq, Repr

/-- Modelled from the spec: a player prop record (`PlayerProp`) from the
missing `src/models/parlay.py`: player name, team, opponent, prop type,
line, over/under American odds, confidence score, hit rate. -/
structure PlayerProp where
  player_name : String
  team : String
  opponent : String
  prop_type : String
  line : ℚ
  over_odds : ℤ
  under_odds : ℤ
  confidence_score : ℚ
  hit_rate : ℚ
deriving DecidableEq, Repr

/-- Modelled from the spec: a parlay leg (`ParlayLeg`): the prop, the
chosen selection, its odds, and its confidence. -/
structure ParlayLeg where
  player_prop : PlayerProp
  selection : String
  odds : ℤ
  confidence : ℚ
deriving DecidableEq, Repr

/-- Modelled from the spec: a parlay (`Parlay`): tier, sport, legs, total
American odds, expected payout multiplier, overall confidence. -/
structure Parlay where
  tier : TierType
  sport : SportType
  legs : List ParlayLeg
  total_odds : ℤ
  expected_payout : ℚ
  overall_confidence : ℚ
deriving DecidableEq, Repr

/-- One tier's requirements dict. -/
structure Requirements where
  min_confidence : ℚ
  target_payout : ℚ
  max_legs : ℕ
  conservative_bias : Bool
deriving Repr

/-- `self.tier_requirements` from `ParlayBuilder.__init__`. -/
def tier_requirements : TierType → Requirements
  | .free => ⟨45, 10, 6, true⟩
  | .premium => ⟨55, 25, 7, false⟩
  | .goat => ⟨65, 50, 8, false⟩

/-- The random choices consumed by one attempt of
`_generate_single_parlay`: the `random.randint(5, min(max_legs, len(props)))`
outcome and the `random.shuffle` outcome (as an arbitrary rearrangement
function applied to the top half). -/
structure AttemptRand where
  num_legs : ℕ
  shuffle : List PlayerProp → List PlayerProp

/-- `list.count` for strings (used for `used_teams.count(prop.team)`). -/
def countStr (t : String) : List String → ℕ
  | [] => 0
  | s :: ss => (if s = t then 1 else 0) + countStr t ss

/-- "At most 2 legs share a team": every team occurs at most twice. -/
def atMostTwoPerTeam (teams : List String) : Prop := ∀ t, countStr t teams ≤ 2

/-- The selection loop of `_select_parlay_props`: walk the (sorted,
possibly shuffled) props; stop at `num_legs`; skip duplicate players and
teams already used twice; otherwise select and record player and team. -/
def selectLoop : List PlayerProp → ℕ → List PlayerProp → List String → List String →
    List PlayerProp
  | [], _, selected, _, _ => selected
  | p :: rest, num_legs, selected, used_players, used_teams =>
    if num_legs ≤ selected.length then selected
    else if p.player_name ∈ used_players then
      selectLoop rest num_legs selected used_players used_teams
    else if 2 ≤ countStr p.team used_teams then
      selectLoop rest num_legs selected used_players used_teams
    else
      selectLoop rest num_legs (selected ++ [p]) (p.player_name :: used_players)
        (used_teams ++ [p.team])

/-- `_select_parlay_props` from `parlay_builder.py`: sort by confidence
descending; for non-conservative tiers shuffle the top half (oracle
`shuffle`); then run the selection loop. -/
def _select_parlay_props (props : List PlayerProp) (num_legs : ℕ) (req : Requirements)
    (shuffle : List PlayerProp → List PlayerProp) : List PlayerProp :=
  if req.conservative_bias then
    selectLoop (sortDescBy (fun p => p.confidence_score) props) num_legs [] [] []
  else
    selectLoop
      (shuffle ((sortDescBy (fun p => p.confidence_score) props).take
          ((sortDescBy (fun p => p.confidence_score) props).length / 2)) ++
        (sortDescBy (fun p => p.confidence_score) props).drop
          ((sortDescBy (fun p => p.confidence_score) props).length / 2))
      num_legs [] [] []

/-- `_create_parlay_leg` from `parlay_builder.py`: GOAT tier selects "over"
iff confidence > 97.5, other tiers iff hit rate > 0.55; the leg's odds are
the chosen side's odds. -/
def _create_parlay_leg (prop : PlayerProp) (tier : TierType) : ParlayLeg :=
  if tier = TierType.goat then
    if (195:ℚ)/2 < prop.confidence_score then
      ⟨prop, "over", prop.over_odds, prop.confidence_score⟩
    else ⟨prop, "under", prop.under_odds, prop.confidence_score⟩
  else
    if (11:ℚ)/20 < prop.hit_rate then
      ⟨prop, "over", prop.over_odds, prop.confidence_score⟩
    else ⟨prop, "under", prop.under_odds, prop.confidence_score⟩

/-- The legs built from the selected props. -/
def legsOf (tier : TierType) (selected : List PlayerProp) : List ParlayLeg :=
  selected.map (fun p => _create_parlay_leg p tier)

/-- `total_confidence / len(legs)` (accumulated leg confidences). -/
def overallConfidence (legs : List ParlayLeg) : ℚ :=
  (legs.map (fun l => l.confidence)).foldl (fun a b => a + b) 0 / (legs.length : ℚ)

/-- `_calculate_total_odds` from `parlay_builder.py`: multiply the legs'
decimal odds (inline American→decimal conversion) and convert back to
American (at decimal exactly 1 Python would raise; rational division by
zero yields a junk value never reached with ≥ 5 legs). -/
def _calculate_total_odds (legs : List ParlayLeg) : ℤ :=
  if 2 ≤ legs.foldl (fun acc leg => acc * americanToDecimalVal leg.odds) 1 then
    pyInt ((legs.foldl (fun acc leg => acc * americanToDecimalVal leg.odds) 1 - 1) * 100)
  else pyInt (-100 / (legs.foldl (fun acc leg => acc * americanToDecimalVal leg.odds) 1 - 1))

/-- `_odds_to_payout_multiplier` from `parlay_builder.py`. -/
def _odds_to_payout_multiplier (american_odds : ℤ) : ℚ :=
  americanToDecimalVal american_odds

/-- Python set of the legs' player names: deduplicated name list. -/
def insertUnique (s : String) (l : List String) : List String :=
  if s ∈ l then l else s :: l

def dedupStr : List String → List String
  | [] => []
  | s :: ss => insertUnique s (dedupStr ss)

/-- `len(new_players.intersection(existing_players))`. -/
def interCount : List String → List String → ℕ
  | [], _ => 0
  | s :: ss, ex => (if s ∈ ex then 1 else 0) + interCount ss ex

/-- `_is_duplicate_parlay` from `parlay_builder.py`: duplicate iff some
existing parlay shares more than 60% of the new parlay's players. -/
def _is_duplicate_parlay (new_parlay : Parlay) : List Parlay → Bool
  | [] => false
  | ex :: rest =>
    if (3:ℚ)/5 <
        ((interCount (dedupStr (new_parlay.legs.map (fun l => l.player_prop.player_name)))
            (dedupStr (ex.legs.map (fun l => l.player_prop.player_name))) : ℕ) : ℚ) /
        (((dedupStr (new_parlay.legs.map (fun l => l.player_prop.player_name))).length : ℕ) : ℚ)
    then true
    else _is_duplicate_parlay new_parlay rest

/-- `_generate_single_parlay` from `parlay_builder.py`: up to 50 attempts
(here: one list entry per attempt, each with its own random choices); an
attempt fails if fewer than 5 props could be selected or the tier's
confidence/payout thresholds (with the 0.8 payout tolerance) are not met. -/
def _generate_single_parlay (props : List PlayerProp) (sport : SportType) (tier : TierType)
    (req : Requirements) : List AttemptRand → Option Parlay
  | [] => none
  | a :: rest =>
    if (_select_parlay_props props a.num_legs req a.shuffle).length < 5 then
      _generate_single_parlay props sport tier req rest
    else if req.min_confidence ≤
        overallConfidence (legsOf tier (_select_parlay_props props a.num_legs req a.shuffle)) ∧
        req.target_payout * (4/5) ≤ _odds_to_payout_multiplier
          (_calculate_total_odds (legsOf tier (_select_parlay_props props a.num_legs req a.shuffle)))
    then
      some ⟨tier, sport, legsOf tier (_select_parlay_props props a.num_legs req a.shuffle),
        _calculate_total_odds (legsOf tier (_select_parlay_props props a.num_legs req a.shuffle)),
        _odds_to_payout_multiplier
          (_calculate_total_odds (legsOf tier (_select_parlay_props props a.num_legs req a.shuffle))),
        overallConfidence (legsOf tier (_select_parlay_props props a.num_legs req a.shuffle))⟩
    else _generate_single_parlay props sport tier req rest

/-- `prop.confidence_score >= requirements["min_confidence"]` filter. -/
def filterEligible (min_confidence : ℚ) : List PlayerProp → List PlayerProp
  | [] => []
  | p :: ps =>
    if min_confidence ≤ p.confidence_score then p :: filterEligible min_confidence ps
    else filterEligible min_confidence ps

/-- The `for i in range(max_parlays)` loop of `_build_tier_parlays`:
append each generated parlay unless it is a duplicate of one already kept. -/
def buildTierLoop (eligible : List PlayerProp) (sport : SportType) (tier : TierType)
    (req : Requirements) (randT : ℕ → List AttemptRand) :
    List ℕ → List Parlay → List Parlay
  | [], parlays => parlays
  | i :: rest, parlays =>
    match _generate_single_parlay eligible sport tier req (randT i) with
    | some parlay =>
      if _is_duplicate_parlay parlay parlays then
        buildTierLoop eligible sport tier req randT rest parlays
      else buildTierLoop eligible sport tier req randT rest (parlays ++ [parlay])
    | none => buildTierLoop eligible sport tier req randT rest parlays

/-- `_build_tier_parlays` from `parlay_builder.py`: filter eligible props,
bail out below 5, then attempt `max_parlays` (3 for GOAT, else 5)
generations. -/
def _build_tier_parlays (props : List PlayerProp) (sport : SportType) (tier : TierType)
    (randT : ℕ → List AttemptRand) : List Parlay :=
  if (filterEligible (tier_requirements tier).min_confidence props).length < 5 then []
  else
    buildTierLoop (filterEligible (tier_requirements tier).min_confidence props) sport tier
      (tier_requirements tier) randT
      (List.range (if tier = TierType.goat then 3 else 5)) []

/-- The `for tier_type in tiers_to_build: all_parlays.extend(...)` loop. -/
def buildLoop (props : List PlayerProp) (sport : SportType)
    (rand : TierType → ℕ → List AttemptRand) : List TierType → List Parlay → List Parlay
  | [], all_parlays => all_parlays
  | t :: ts, all_parlays =>
    buildLoop props sport rand ts (all_parlays ++ _build_tier_parlays props sport t (rand t))

/-- `build_parlays` from `parlay_builder.py`: one tier if given, else all
tiers (`list(TierType)` in declaration order Free, Premium, GOAT). -/
def build_parlays (props : List PlayerProp) (sport : SportType) (tier : Option TierType)
    (rand : TierType → ℕ → List AttemptRand) : List Parlay :=
  match tier with
  | some t => buildLoop props sport rand [t] []
  | none => buildLoop props sport rand [TierType.free, TierType.premium, TierType.goat] []

/-! ### C2 invariant proofs -/

lemma countStr_append (t : String) (l1 l2 : List String) :
    countStr t (l1 ++ l2) = countStr t l1 + countStr t l2 := by
  induction l1 with
  | nil => simp [countStr]
  | cons s ss ih =>
    show countStr t (s :: (ss ++ l2)) = countStr t (s :: ss) + countStr t l2
    simp only [countStr]
    rw [ih]
    omega

lemma create_leg_player_prop (q : PlayerProp) (tier : TierType) :
    (_create_parlay_leg q tier).player_prop = q := by
  unfold _create_parlay_leg
  split_ifs <;> rfl

lemma selectLoop_inv :
    ∀ (props : List PlayerProp) (num_legs : ℕ) (selected : List PlayerProp)
      (up : List String),
      (∀ q ∈ selected, q.player_name ∈ up) →
      (selected.map (fun q => q.player_name)).Nodup →
      (∀ t, countStr t (selected.map (fun q => q.team)) ≤ 2) →
      ((selectLoop props num_legs selected up (selected.map (fun q => q.team))).map
        (fun q => q.player_name)).Nodup ∧
      ∀ t, countStr t ((selectLoop props num_legs selected up
        (selected.map (fun q => q.team))).map (fun q => q.team)) ≤ 2 := by
  intro props
  induction props with
  | nil =>
    intro num_legs selected up _ hnd hcnt
    exact ⟨hnd, hcnt⟩
  | cons p rest ih =>
    intro num_legs selected up hup hnd hcnt
    by_cases hstop : num_legs ≤ selected.length
    · have hres : selectLoop (p :: rest) num_legs selected up
          (selected.map (fun q => q.team)) = selected := by
        simp only [selectLoop]
        rw [if_pos hstop]
      rw [hres]
      exact ⟨hnd, hcnt⟩
    · by_cases hdup : p.player_name ∈ up
      · have hres : selectLoop (p :: rest) num_legs selected up
            (selected.map (fun q => q.team)) =
            selectLoop rest num_legs selected up (selected.map (fun q => q.team)) := by
          simp only [selectLoop]
          rw [if_neg hstop, if_pos hdup]
        rw [hres]
        exact ih num_legs selected up hup hnd hcnt
      · by_cases hteam : 2 ≤ countStr p.team (selected.map (fun q => q.team))
        · have hres : selectLoop (p :: rest) num_legs selected up
              (selected.map (fun q => q.team)) =
              selectLoop rest num_legs selected up (selected.map (fun q => q.team)) := by
            simp only [selectLoop]
            rw [if_neg hstop, if_neg hdup, if_pos hteam]
          rw [hres]
          exact ih num_legs selected up hup hnd hcnt
        · have hres : selectLoop (p :: rest) num_legs selected up
              (selected.map (fun q => q.team)) =
              selectLoop rest num_legs (selected ++ [p]) (p.player_name :: up)
                ((selected ++ [p]).map (fun q => q.team)) := by
            simp only [selectLoop]
            rw [if_neg hstop, if_neg hdup, if_neg hteam, List.map_append]
            rfl
          have hup' : ∀ q ∈ selected ++ [p], q.player_name ∈ p.player_name :: up := by
            intro q hq
            rcases List.mem_append.mp hq with h | h
            · exact List.mem_cons_of_mem _ (hup q h)
            · rw [List.mem_singleton.mp h]
              exact List.mem_cons_self _ _
          have hnotin : p.player_name ∉ selected.map (fun q => q.player_name) := by
            intro hc
            obtain ⟨q, hq, hqe⟩ := List.mem_map.mp hc
            exact hdup (hqe ▸ hup q hq)
          have hnd' : ((selected ++ [p]).map (fun q => q.player_name)).Nodup := by
            rw [List.map_append]
            refine List.Nodup.append hnd (List.nodup_singleton _) ?_
            intro a ha hb
            rw [List.mem_singleton.mp hb] at ha
            exact hnotin ha
          have hcnt' : ∀ t, countStr t ((selected ++ [p]).map (fun q => q.team)) ≤ 2 := by
            intro t
            rw [List.map_append, countStr_append]
            have hsingle : countStr t (List.map (fun q => q.team) [p]) =
                if p.team = t then 1 else 0 := by
              simp [countStr]
            by_cases ht : p.team = t
            · rw [hsingle, if_pos ht, ← ht]
              omega
            · rw [hsingle, if_neg ht]
              have := hcnt t
              omega
          rw [hres]
          exact ih num_legs (selected ++ [p]) (p.player_name :: up) hup' hnd' hcnt'

lemma selectLoop_inv0 (props : List PlayerProp) (num_legs : ℕ) :
    ((selectLoop props num_legs [] [] []).map (fun q => q.player_name)).Nodup ∧
    ∀ t, countStr t ((selectLoop props num_legs [] [] []).map (fun q => q.team)) ≤ 2 := by
  have h := selectLoop_inv props num_legs [] [] (by intro q hq; cases hq)
    List.nodup_nil (by intro t; exact Nat.zero_le _)
  simpa using h

lemma select_props_inv (props : List PlayerProp) (num_legs : ℕ) (req : Requirements)
    (shuffle : List PlayerProp → List PlayerProp) :
    ((_select_parlay_props props num_legs req shuffle).map (fun q => q.player_name)).Nodup ∧
    ∀ t, countStr t ((_select_parlay_props props num_legs req shuffle).map
      (fun q => q.team)) ≤ 2 := by
  unfold _select_parlay_props
  split
  · exact selectLoop_inv0 _ _
  · exact selectLoop_inv0 _ _

lemma generate_single_parlay_inv (props : List PlayerProp) (sport : SportType)
    (tier : TierType) (req : Requirements) :
    ∀ (attempts : List AttemptRand) (parlay : Parlay),
      _generate_single_parlay props sport tier req attempts = some parlay →
      (parlay.legs.map (fun l => l.player_prop.player_name)).Nodup ∧
      atMostTwoPerTeam (parlay.legs.map (fun l => l.player_prop.team)) := by
  intro attempts
  induction attempts with
  | nil =>
    intro parlay h
    exact absurd h (by simp [_generate_single_parlay])
  | cons a rest ih =>
    intro parlay h
    simp only [_generate_single_parlay] at h
    split at h
    · exact ih parlay h
    · split at h
      · have hinj := Option.some.inj h
        obtain ⟨hnd, hcnt⟩ := select_props_inv props a.num_legs req a.shuffle
        constructor
        · have hmap : parlay.legs.map (fun l => l.player_prop.player_name) =
              (_select_parlay_props props a.num_legs req a.shuffle).map
                (fun q => q.player_name) := by
            rw [← hinj]
            show (legsOf tier (_select_parlay_props props a.num_legs req a.shuffle)).map
              (fun l => l.player_prop.player_name) = _
            unfold legsOf
            rw [List.map_map]
            simp only [Function.comp_def, create_leg_player_prop]
          rw [hmap]
          exact hnd
        · intro t
          have hmap : parlay.legs.map (fun l => l.player_prop.team) =
              (_select_parlay_props props a.num_legs req a.shuffle).map
                (fun q => q.team) := by
            rw [← hinj]
            show (legsOf tier (_select_parlay_props props a.num_legs req a.shuffle)).map
              (fun l => l.player_prop.team) = _
            unfold legsOf
            rw [List.map_map]
            simp only [Function.comp_def, create_leg_player_prop]
          rw [hmap]
          exact hcnt t
      · exact ih parlay h

lemma buildTierLoop_inv (eligible : List PlayerProp) (sport : SportType) (tier : TierType)
    (req : Requirements) (randT : ℕ → List AttemptRand) :
    ∀ (idxs : List ℕ) (acc : List Parlay),
      (∀ q ∈ acc,
        (q.legs.map (fun l => l.player_prop.player_name)).Nodup ∧
        atMostTwoPerTeam (q.legs.map (fun l => l.player_prop.team))) →
      ∀ parlay ∈ buildTierLoop eligible sport tier req randT idxs acc,
        (parlay.legs.map (fun l => l.player_prop.player_name)).Nodup ∧
        atMostTwoPerTeam (parlay.legs.map (fun l => l.player_prop.team)) := by
  intro idxs
  induction idxs with
  | nil =>
    intro acc hacc parlay hmem
    exact hacc parlay hmem
  | cons i rest ih =>
    intro acc hacc parlay hmem
    rcases hgen : _generate_single_parlay eligible sport tier req (randT i) with _ | p
    · have hstep : buildTierLoop eligible sport tier req randT (i :: rest) acc =
          buildTierLoop eligible sport tier req randT rest acc := by
        simp only [buildTierLoop, hgen]
      rw [hstep] at hmem
      exact ih acc hacc parlay hmem
    · by_cases hdup : _is_duplicate_parlay p acc
      · have hstep : buildTierLoop eligible sport tier req randT (i :: rest) acc =
            buildTierLoop eligible sport tier req randT rest acc := by
          simp only [buildTierLoop, hgen, hdup, if_true]
        rw [hstep] at hmem
        exact ih acc hacc parlay hmem
      · have hstep : buildTierLoop eligible sport tier req randT (i :: rest) acc =
            buildTierLoop eligible sport tier req randT rest (acc ++ [p]) := by
          simp only [buildTierLoop, hgen]
          rw [if_neg hdup]
        rw [hstep] at hmem
        refine ih (acc ++ [p]) ?_ parlay hmem
        intro q hq
        rcases List.mem_append.mp hq with h | h
        · exact hacc q h
        · rw [List.mem_singleton.mp h]
          exact generate_single_parlay_inv eligible sport tier req (randT i) p hgen
    
lemma build_tier_parlays_inv (props : List PlayerProp) (sport : SportType) (tier : TierType)
    (randT : ℕ → List AttemptRand) :
    ∀ parlay ∈ _build_tier_parlays props sport tier randT,
      (parlay.legs.map (fun l => l.player_prop.player_name)).Nodup ∧
      atMostTwoPerTeam (parlay.legs.map (fun l => l.player_prop.team)) := by
  unfold _build_tier_parlays
  split
  · intro parlay h
    cases h
  · exact buildTierLoop_inv _ sport tier _ randT _ [] (by intro q hq; cases hq)

lemma buildLoop_inv (props : List PlayerProp) (sport : SportType)
    (rand : TierType → ℕ → List AttemptRand) :
    ∀ (ts : List TierType) (acc : List Parlay),
      (∀ q ∈ acc,
        (q.legs.map (fun l => l.player_prop.player_name)).Nodup ∧
        atMostTwoPerTeam (q.legs.map (fun l => l.player_prop.team))) →
      ∀ parlay ∈ buildLoop props sport rand ts acc,
        (parlay.legs.map (fun l => l.player_prop.player_name)).Nodup ∧
        atMostTwoPerTeam (parlay.legs.map (fun l => l.player_prop.team)) := by
  intro ts
  induction ts with
  | nil =>
    intro acc hacc parlay hmem
    exact hacc parlay hmem
  | cons t ts ih =>
    intro acc hacc parlay hmem
    rw [show buildLoop props sport rand (t :: ts) acc =
      buildLoop props sport rand ts (acc ++ _build_tier_parlays props sport t (rand t))
      from rfl] at hmem
    refine ih _ ?_ parlay hmem
    intro q hq
    rcases List.mem_append.mp hq with h | h
    · exact hacc q h
    · exact build_tier_parlays_inv props sport t (rand t) q h

/-- C2: every parlay returned by `build_parlays` — for any props, sport,
tier filter, and random outcomes — has pairwise-distinct player names
across its legs and at most 2 legs sharing any team. -/
theorem build_parlays_no_dup_team_cap (props : List PlayerProp) (sport : SportType)
    (tier : Option TierType) (rand : TierType → ℕ → List AttemptRand)
    (parlay : Parlay) (hmem : parlay ∈ build_parlays props sport tier rand) :
    (parlay.legs.map (fun l => l.player_prop.player_name)).Nodup ∧
    atMostTwoPerTeam (parlay.legs.map (fun l => l.player_prop.team)) := by
  cases tier with
  | some t =>
    exact buildLoop_inv props sport rand [t] [] (by intro q hq; cases hq) parlay hmem
  | none =>
    exact buildLoop_inv props sport rand [TierType.free, TierType.premium, TierType.goat] []
      (by intro q hq; cases hq) parlay hmem

/-! ### C2 witness: a concrete run of `build_parlays` -/

def wp1 : PlayerProp := ⟨"A", "T1", "O", "hits", 1/2, 100, -120, 50, 9/10⟩
def wp2 : PlayerProp := ⟨"B", "T2", "O", "hits", 1/2, 100, -120, 50, 9/10⟩
def wp3 : PlayerProp := ⟨"C", "T3", "O", "hits", 1/2, 100, -120, 50, 9/10⟩
def wp4 : PlayerProp := ⟨"D", "T4", "O", "hits", 1/2, 100, -120, 50, 9/10⟩
def wp5 : PlayerProp := ⟨"E", "T5", "O", "hits", 1/2, 100, -120, 50, 9/10⟩

def witnessProps : List PlayerProp := [wp1, wp2, wp3, wp4, wp5]

def witnessLegs : List ParlayLeg :=
  [⟨wp1, "over", 100, 50⟩, ⟨wp2, "over", 100, 50⟩, ⟨wp3, "over", 100, 50⟩,
   ⟨wp4, "over", 100, 50⟩, ⟨wp5, "over", 100, 50⟩]

def witnessParlay : Parlay := ⟨TierType.free, SportType.mlb, witnessLegs, 3100, 32, 50⟩

def witnessRand : TierType → ℕ → List AttemptRand := fun _ _ => [⟨5, fun l => l⟩]

lemma wit_sort : sortDescBy (fun p => p.confidence_score) witnessProps = witnessProps := by
  norm_num [witnessProps, sortDescBy, insertDescBy, wp1, wp2, wp3, wp4, wp5]

lemma wit_select :
    _select_parlay_props witnessProps 5 (tier_requirements TierType.free) (fun l => l) =
      witnessProps := by
  unfold _select_parlay_props
  rw [show (tier_requirements TierType.free).conservative_bias = true from rfl]
  rw [if_pos rfl, wit_sort]
  simp [witnessProps, selectLoop, countStr, wp1, wp2, wp3, wp4, wp5]

lemma wit_legs : legsOf TierType.free witnessProps = witnessLegs := by
  simp [legsOf, _create_parlay_leg, witnessProps, witnessLegs, wp1, wp2, wp3, wp4, wp5]
  norm_num

lemma wit_conf : overallConfidence witnessLegs = 50 := by
  norm_num [overallConfidence, witnessLegs]

lemma wit_decimal :
    witnessLegs.foldl (fun acc leg => acc * americanToDecimalVal leg.odds) 1 = 32 := by
  norm_num [witnessLegs, americanToDecimalVal]

lemma wit_total : _calculate_total_odds witnessLegs = 3100 := by
  unfold _calculate_total_odds
  rw [wit_decimal, if_pos (by norm_num : (2:ℚ) ≤ 32)]
  rw [show ((32:ℚ) - 1) * 100 = ((3100:ℤ) : ℚ) by norm_num, pyInt_intCast]

lemma wit_payout : _odds_to_payout_multiplier 3100 = 32 := by
  norm_num [_odds_to_payout_multiplier, americanToDecimalVal]

lemma wit_gen :
    _generate_single_parlay witnessProps SportType.mlb TierType.free
      (tier_requirements TierType.free) [⟨5, fun l => l⟩] = some witnessParlay := by
  simp only [_generate_single_parlay]
  rw [wit_select, wit_legs, wit_conf, wit_total, wit_payout]
  rw [if_neg (by norm_num [witnessProps] : ¬ witnessProps.length < 5)]
  rw [if_pos (by norm_num [tier_requirements] :
    (tier_requirements TierType.free).min_confidence ≤ 50 ∧
    (tier_requirements TierType.free).target_payout * (4/5) ≤ 32)]
  rfl

lemma wit_dup : _is_duplicate_parlay witnessParlay [witnessParlay] = true := by
  simp only [_is_duplicate_parlay, witnessParlay, witnessLegs, dedupStr, insertUnique,
    interCount, wp1, wp2, wp3, wp4, wp5, List.map_cons, List.map_nil]
  simp
  norm_num

lemma wit_filter :
    filterEligible (tier_requirements TierType.free).min_confidence witnessProps =
      witnessProps := by
  norm_num [filterEligible, tier_requirements, witnessProps, wp1, wp2, wp3, wp4, wp5]

lemma wit_tierLoop_dup (i : ℕ) (rest : List ℕ) :
    buildTierLoop witnessProps SportType.mlb TierType.free (tier_requirements TierType.free)
      (witnessRand TierType.free) (i :: rest) [witnessParlay] =
    buildTierLoop witnessProps SportType.mlb TierType.free (tier_requirements TierType.free)
      (witnessRand TierType.free) rest [witnessParlay] := by
  simp only [buildTierLoop]
  rw [show witnessRand TierType.free i = [⟨5, fun l => l⟩] from rfl, wit_gen]
  simp only [wit_dup, if_true]

lemma buildTierLoop_step_add (eligible : List PlayerProp) (sport : SportType)
    (tier : TierType) (req : Requirements) (randT : ℕ → List AttemptRand) (i : ℕ)
    (rest : List ℕ) (acc : List Parlay) (p : Parlay)
    (hgen : _generate_single_parlay eligible sport tier req (randT i) = some p)
    (hdup : _is_duplicate_parlay p acc = false) :
    buildTierLoop eligible sport tier req randT (i :: rest) acc =
      buildTierLoop eligible sport tier req randT rest (acc ++ [p]) := by
  simp only [buildTierLoop, hgen, hdup, Bool.false_eq_true, if_false]

lemma buildTierLoop_step_dup (eligible : List PlayerProp) (sport : SportType)
    (tier : TierType) (req : Requirements) (randT : ℕ → List AttemptRand) (i : ℕ)
    (rest : List ℕ) (acc : List Parlay) (p : Parlay)
    (hgen : _generate_single_parlay eligible sport tier req (randT i) = some p)
    (hdup : _is_duplicate_parlay p acc = true) :
    buildTierLoop eligible sport tier req randT (i :: rest) acc =
      buildTierLoop eligible sport tier req randT rest acc := by
  simp only [buildTierLoop, hgen, hdup, if_true]

lemma wit_tier :
    _build_tier_parlays witnessProps SportType.mlb TierType.free (witnessRand TierType.free) =
      [witnessParlay] := by
  unfold _build_tier_parlays
  rw [wit_filter]
  rw [if_neg (by norm_num [witnessProps] : ¬ witnessProps.length < 5)]
  rw [show (if TierType.free = TierType.goat then 3 else 5) = 5 by rfl]
  rw [show List.range 5 = [0, 1, 2, 3, 4] by rfl]
  rw [buildTierLoop_step_add witnessProps SportType.mlb TierType.free
    (tier_requirements TierType.free) (witnessRand TierType.free) 0 [1, 2, 3, 4] []
    witnessParlay wit_gen rfl]
  simp only [List.nil_append]
  rw [buildTierLoop_step_dup witnessProps SportType.mlb TierType.free
    (tier_requirements TierType.free) (witnessRand TierType.free) 1 [2, 3, 4] [witnessParlay]
    witnessParlay wit_gen wit_dup]
  rw [buildTierLoop_step_dup witnessProps SportType.mlb TierType.free
    (tier_requirements TierType.free) (witnessRand TierType.free) 2 [3, 4] [witnessParlay]
    witnessParlay wit_gen wit_dup]
  rw [buildTierLoop_step_dup witnessProps SportType.mlb TierType.free
    (tier_requirements TierType.free) (witnessRand TierType.free) 3 [4] [witnessParlay]
    witnessParlay wit_gen wit_dup]
  rw [buildTierLoop_step_dup witnessProps SportType.mlb TierType.free
    (tier_requirements TierType.free) (witnessRand TierType.free) 4 [] [witnessParlay]
    witnessParlay wit_gen wit_dup]
  rfl

lemma wit_build :
    build_parlays witnessProps SportType.mlb (some TierType.free) witnessRand =
      [witnessParlay] := by
  unfold build_parlays buildLoop
  rw [wit_tier]
  rfl

/-- C2 witness: the invariant theorem applied to the (unique) parlay built
from a concrete five-prop pool in the Free tier with a fixed random oracle. -/
theorem build_parlays_no_dup_team_cap_witness :
    witnessParlay ∈ build_parlays witnessProps SportType.mlb (some TierType.free) witnessRand ∧
    ((witnessParlay.legs.map (fun l => l.player_prop.player_name)).Nodup ∧
      atMostTwoPerTeam (witnessParlay.legs.map (fun l => l.player_prop.team))) :=
  ⟨by rw [wit_build]; exact List.mem_cons_self _ _,
   build_parlays_no_dup_team_cap witnessProps SportType.mlb (some TierType.free) witnessRand
     witnessParlay (by rw [wit_build]; exact List.mem_cons_self _ _)⟩

end StatsSync
